import Mathlib

/-!
Verification development for the block-library operations of the
mcp-da-live-admin repository (src/operations/blocks.js and
src/common/block-utils.js).  JavaScript strings are embedded as `List Char`,
indices as `Nat`; the regular expressions of the source are embedded as
hand-rolled scanning functions that follow the leftmost / greedy semantics of
the JavaScript regex engine on the concrete patterns the source uses.
While-loops whose cursor strictly advances are embedded with an explicit fuel
parameter; the top-level wrappers pass fuel `length + 1`, which is sufficient
because every iteration of the corresponding source loop advances its cursor
by at least one character.
-/

abbrev Str := List Char

/-- Whitespace characters recognised by JavaScript `\s` / `trim` (ASCII part;
the source is only ever applied to HTML/CSS text). -/
def isWs (c : Char) : Bool :=
  c == ' ' || c == '\t' || c == '\n' || c == '\r' || c == '\x0b' || c == '\x0c'

/-- JavaScript `\w` character class: `[A-Za-z0-9_]`. -/
def isWordChar (c : Char) : Bool := c.isAlphanum || c == '_'

/-- Character class `[a-zA-Z0-9_-]` used by the CSS class collector. -/
def isClassChar (c : Char) : Bool := c.isAlphanum || c == '_' || c == '-'

/-- `String.prototype.trim`: strip leading and trailing whitespace. -/
def trimStr (s : Str) : Str :=
  ((s.dropWhile isWs).reverse.dropWhile isWs).reverse

/-- `html.substring(a, b)` for `a ≤ b`. -/
def subStr (s : Str) (a b : Nat) : Str := (s.take b).drop a

/-- JavaScript truthiness of a `string | null | undefined` value:
`null`/`undefined` and the empty string are falsy. -/
def truthyStr : Option Str → Bool
  | some s => !s.isEmpty
  | none => false

/-- JavaScript `a || b` where `a : string | null | undefined` and `b` a string. -/
def jsOrStr (a : Option Str) (b : Str) : Str :=
  match a with
  | some s => if s.isEmpty then b else s
  | none => b

/-- JavaScript `a || b` where both sides are `string | null | undefined`. -/
def jsOrOpt (a b : Option Str) : Option Str :=
  match a with
  | some s => if s.isEmpty then b else some s
  | none => b

/-- JavaScript `haystack.includes(needle)`: substring test. -/
def isSubStr (needle : Str) : Str → Bool
  | [] => needle.isEmpty
  | c :: rest => needle.isPrefixOf (c :: rest) || isSubStr needle rest

/-! ### The inner `<div>` depth scan of `parseBlockInstances`
(src/operations/blocks.js lines 211-237).

`divOpenRegex = /<div[^>]*>/g` and `divCloseRegex = /<\/div>/g` (both
case-sensitive).  A `/<div[^>]*>/` match at a position exists iff the text
starts with `<div` there and a `>` occurs at offset ≥ 4; greediness makes the
match end at the first such `>`. -/

/-- Offset of the first occurrence of character `c`. -/
def firstIdxChar (c : Char) : Str → Option Nat
  | [] => none
  | x :: xs => if x == c then some 0 else (firstIdxChar c xs).map (· + 1)

/-- Length of a `/<div[^>]*>/` match starting at the head of `t`, if any. -/
def openLenAt (t : Str) : Option Nat :=
  if "<div".toList.isPrefixOf t then
    (firstIdxChar '>' (t.drop 4)).map (fun k => 4 + k + 1)
  else none

/-- Earliest `/<div[^>]*>/` match in `t`: `(offset, length)`. -/
def findDivOpenOff : Str → Option (Nat × Nat)
  | [] => none
  | c :: rest =>
    match openLenAt (c :: rest) with
    | some len => some (0, len)
    | none => (findDivOpenOff rest).map (fun r => (r.1 + 1, r.2))

/-- `divOpenRegex.lastIndex = pos; divOpenRegex.exec(html)`:
earliest match at index ≥ `pos`, returned as `(index, endIndex)`. -/
def findDivOpenFrom (s : Str) (pos : Nat) : Option (Nat × Nat) :=
  (findDivOpenOff (s.drop pos)).map (fun r => (pos + r.1, pos + r.1 + r.2))

/-- Earliest occurrence of `</div>` in `t` (offset). -/
def findDivCloseOff : Str → Option Nat
  | [] => none
  | c :: rest =>
    if "</div>".toList.isPrefixOf (c :: rest) then some 0
    else (findDivCloseOff rest).map (· + 1)

/-- `divCloseRegex.lastIndex = pos; divCloseRegex.exec(html)`: index of the
earliest `</div>` at index ≥ `pos`. -/
def findDivCloseFrom (s : Str) (pos : Nat) : Option Nat :=
  (findDivCloseOff (s.drop pos)).map (pos + ·)

/-- The `while (depth > 0 && pos < html.length)` loop of
`parseBlockInstances`: scan forward from `pos`, counting `<div...>` opens
against `</div>` closes, starting at `depth`; return the index of the close
tag that brings the depth to zero, or `none` if the loop exits without one
(`break` on a missing close, or the cursor passing the end of the text).
Fuel: each iteration advances `pos` by at least 5, so `length + 1` suffices. -/
def scanCloseF : Nat → Str → Nat → Nat → Option Nat
  | 0, _, _, _ => none
  | fuel + 1, s, depth, pos =>
    match findDivCloseFrom s pos with
    | none => none
    | some cIdx =>
      match findDivOpenFrom s pos with
      | some (oIdx, oEnd) =>
        if oIdx < cIdx then scanCloseF fuel s (depth + 1) oEnd
        else if depth = 1 then some cIdx else scanCloseF fuel s (depth - 1) (cIdx + 6)
      | none =>
        if depth = 1 then some cIdx else scanCloseF fuel s (depth - 1) (cIdx + 6)

def scanClose (s : Str) (depth pos : Nat) : Option Nat :=
  scanCloseF (s.length + 1) s depth pos

/-! Spec-side rendition of the same sentence of the specification: "scan
forward counting nested `<div>` opens against `</div>` closes".  The token
stream lists, in scan order, the open/close tags the loop visits; the first
close token preceded by equally many opens and closes (relative to the
starting depth) is the matching close. -/

/-- Spec-modelled token stream: the sequence of `(isOpen, index)` tag events
visited when scanning forward from `pos`. -/
def tokenStreamF : Nat → Str → Nat → List (Bool × Nat)
  | 0, _, _ => []
  | fuel + 1, s, pos =>
    match findDivCloseFrom s pos with
    | none => []
    | some cIdx =>
      match findDivOpenFrom s pos with
      | some (oIdx, oEnd) =>
        if oIdx < cIdx then (true, oIdx) :: tokenStreamF fuel s oEnd
        else (false, cIdx) :: tokenStreamF fuel s (cIdx + 6)
      | none => (false, cIdx) :: tokenStreamF fuel s (cIdx + 6)

/-- Spec-modelled: the first close token at which the running depth (starting
at `d`) returns to zero. -/
def firstBalancedClose : Nat → List (Bool × Nat) → Option Nat
  | _, [] => none
  | d, (true, _) :: ts => firstBalancedClose (d + 1) ts
  | d, (false, c) :: ts => if d = 1 then some c else firstBalancedClose (d - 1) ts

/-- Number of open tokens. -/
def countOpens (ts : List (Bool × Nat)) : Nat :=
  (ts.filter (fun t => t.1)).length

/-- Number of close tokens. -/
def countCloses (ts : List (Bool × Nat)) : Nat :=
  (ts.filter (fun t => !t.1)).length

theorem scanCloseF_eq_firstBalancedClose (fuel : Nat) :
    ∀ (s : Str) (d pos : Nat),
      scanCloseF fuel s d pos = firstBalancedClose d (tokenStreamF fuel s pos) := by
  induction fuel with
  | zero => intro s d pos; rfl
  | succ f ih =>
    intro s d pos
    simp only [scanCloseF, tokenStreamF]
    cases hc : findDivCloseFrom s pos with
    | none => rfl
    | some cIdx =>
      cases ho : findDivOpenFrom s pos with
      | none =>
        simp only [firstBalancedClose]
        by_cases hd : d = 1 <;> simp [hd, ih]
      | some oe =>
        obtain ⟨oIdx, oEnd⟩ := oe
        by_cases hlt : oIdx < cIdx
        · simp [hlt, firstBalancedClose, ih]
        · by_cases hd : d = 1 <;> simp [hlt, hd, firstBalancedClose, ih]

/-- When the scan returns a close index, the token stream decomposes at that
close with equally many opens and closes before it (the depth, started at
`d`, returns to zero exactly there). -/
theorem firstBalancedClose_balance :
    ∀ (ts : List (Bool × Nat)) (d c : Nat), 1 ≤ d →
      firstBalancedClose d ts = some c →
      ∃ pre post, ts = pre ++ (false, c) :: post ∧
        d + countOpens pre = 1 + countCloses pre := by
  intro ts
  induction ts with
  | nil => intro d c _ h; simp [firstBalancedClose] at h
  | cons t rest ih =>
    intro d c hd h
    obtain ⟨b, i⟩ := t
    cases b with
    | true =>
      simp only [firstBalancedClose] at h
      obtain ⟨pre, post, hdec, hbal⟩ := ih (d + 1) c (by omega) h
      refine ⟨(true, i) :: pre, post, by simp [hdec], ?_⟩
      simp [countOpens, countCloses] at hbal ⊢
      omega
    | false =>
      simp only [firstBalancedClose] at h
      by_cases hd1 : d = 1
      · simp [hd1] at h
        exact ⟨[], rest, by simp [h, hd1], by simp [countOpens, countCloses, hd1]⟩
      · simp [hd1] at h
        obtain ⟨pre, post, hdec, hbal⟩ := ih (d - 1) c (by omega) h
        refine ⟨(false, i) :: pre, post, by simp [hdec], ?_⟩
        simp [countOpens, countCloses] at hbal ⊢
        omega

/-! ### The opening-tag regex of `parseBlockInstances`
(src/operations/blocks.js line 195):

`new RegExp('<div([^>]*class="[^"]*\\b' + blockName + '\\b[^"]*"[^>]*)>', 'gi')`

Embedded as a leftmost / greedy backtracking matcher for that concrete
pattern shape (the interpolated `blockName` is taken literally; the block
names of this repository contain no regex metacharacters).  The `i` flag
makes the literal parts case-insensitive. -/

def ciEq (a b : Char) : Bool := a.toLower == b.toLower

/-- Case-insensitive prefix test (the `i` flag of the regex). -/
def ciPrefix : Str → Str → Bool
  | [], _ => true
  | _ :: _, [] => false
  | a :: as, b :: bs => ciEq a b && ciPrefix as bs

def isWordOpt : Option Char → Bool
  | some c => isWordChar c
  | none => false

def charBefore (u : Str) (j : Nat) : Option Char :=
  if j = 0 then none else u[j - 1]?

/-- JavaScript `\b`: the word-ness of the characters around position `j`
differs (a missing character counts as non-word). -/
def wordBoundaryAt (u : Str) (j : Nat) : Bool :=
  isWordOpt (charBefore u j) != isWordOpt u[j]?

/-- Length of the maximal `[^>]*` run at the head of `t`. -/
def lenNonGt (t : Str) : Nat := (t.takeWhile (fun c => !(c == '>'))).length

/-- Length of the maximal `[^"]*` run at the head of `t`. -/
def lenNonQuote (t : Str) : Nat := (t.takeWhile (fun c => !(c == '"'))).length

/-- Greedy choice: try offsets `k, k-1, ..., 0` and return the first success
(the regex engine backtracks a greedy `*` from longest to shortest). -/
def downFirst (f : Nat → Option α) : Nat → Option α
  | 0 => f 0
  | k + 1 =>
    match f (k + 1) with
    | some r => some r
    | none => downFirst f k

/-- Attempt the tail `\bB\b[^"]*"[^>]*>` with the `\bB\b` at offset `q + m`
of `u` (`u` is the text after `<div`).  On success, return the full match
length (in the original text) and the capture group (the attributes). -/
def tryNamePos (B u : Str) (q m : Nat) : Option (Nat × Str) :=
  let j := q + m
  if ciPrefix B (u.drop j) && wordBoundaryAt u j && wordBoundaryAt u (j + B.length) then
    let e := j + B.length
    let r := lenNonQuote (u.drop e)
    match u[e + r]? with
    | some '"' =>
      let u2 := e + r + 1
      let w := lenNonGt (u.drop u2)
      match u[u2 + w]? with
      | some '>' => some (4 + u2 + w + 1, u.take (u2 + w))
      | _ => none
    | _ => none
  else none

/-- Attempt `class="[^"]*\bB\b[^"]*"[^>]*>` with the literal `class="` at
offset `k` of `u`; the inner `[^"]*` is greedy. -/
def tryClassPos (B u : Str) (k : Nat) : Option (Nat × Str) :=
  if ciPrefix "class=\"".toList (u.drop k) then
    downFirst (tryNamePos B u (k + 7)) (lenNonQuote (u.drop (k + 7)))
  else none

/-- Match of the opening-tag regex at the head of `t`: `(length, group 1)`.
The leading `[^>]*` is greedy, so `class="` positions are tried from the
latest to the earliest. -/
def matchOpenTagAt (B t : Str) : Option (Nat × Str) :=
  if ciPrefix "<div".toList t then
    downFirst (tryClassPos B (t.drop 4)) (lenNonGt (t.drop 4))
  else none

/-- Leftmost opening-tag match in `t`: `(offset, length, group 1)`. -/
def findOpenTagOff (B : Str) : Str → Option (Nat × Nat × Str)
  | [] => none
  | c :: rest =>
    match matchOpenTagAt B (c :: rest) with
    | some (len, attrs) => some (0, len, attrs)
    | none => (findOpenTagOff B rest).map (fun r => (r.1 + 1, r.2.1, r.2.2))

/-- `openTagRegex.exec(html)` with `lastIndex = pos`: leftmost match at index
≥ `pos`, as `(index, length, group 1)`. -/
def findOpenTagFrom (B s : Str) (pos : Nat) : Option (Nat × Nat × Str) :=
  (findOpenTagOff B (s.drop pos)).map (fun r => (pos + r.1, r.2.1, r.2.2))

/-! ### Variant derivation and the outer loop of `parseBlockInstances`
(src/operations/blocks.js lines 193-241). -/

/-- `attributes.match(/class="([^"]*)"/)` (case-sensitive, leftmost): the
value of the first completed `class="..."` attribute, if any. -/
def classValue : Str → Option Str
  | [] => none
  | c :: rest =>
    if "class=\"".toList.isPrefixOf (c :: rest) then
      let v := ((c :: rest).drop 7).takeWhile (fun x => !(x == '"'))
      if v.length < ((c :: rest).drop 7).length then some v
      else classValue rest
    else classValue rest

mutual

/-- JavaScript `str.split(/\s+/)`: split on maximal whitespace runs; a
leading or trailing run contributes an empty field. -/
def splitWsGo : Str → Str → List Str
  | [], acc => [acc.reverse]
  | c :: rest, acc =>
    if isWs c then acc.reverse :: splitWsSkip rest
    else splitWsGo rest (c :: acc)

/-- Continuation of `splitWsGo` inside a whitespace run. -/
def splitWsSkip : Str → List Str
  | [] => [[]]
  | c :: rest =>
    if isWs c then splitWsSkip rest
    else splitWsGo rest [c]

end

def splitWs (s : Str) : List Str := splitWsGo s []

/-- `cls !== blockName && !cls.startsWith(blockName + '-')` (line 205). -/
def isVariantToken (blockName cls : Str) : Bool :=
  !(cls == blockName) && !((blockName ++ ['-']).isPrefixOf cls)

/-- The variant of one matched instance (lines 203-205): the first class
token that is neither the block name nor block-name-hyphen-prefixed, the
empty string when there is none (and `found || ''` also maps an empty found
token to the empty string, which coincides with `getD`). -/
def deriveVariant (blockName : Str) (classes : List Str) : Str :=
  (classes.find? (isVariantToken blockName)).getD []

/-- JavaScript object read `blockInstances[variant]` (keys are unique). -/
def lookupKV : List (Str × Str) → Str → Option Str
  | [], _ => none
  | (k, v) :: rest, q => if k = q then some v else lookupKV rest q

/-- JavaScript object write `blockInstances[variant] = content`: overwrite in
place when the key exists, append otherwise. -/
def insertKV : List (Str × Str) → Str → Str → List (Str × Str)
  | [], k, v => [(k, v)]
  | (k', v') :: rest, k, v =>
    if k' = k then (k', v) :: rest else (k', v') :: insertKV rest k v

/-- The outer `while ((match = openTagRegex.exec(html)) !== null)` loop of
`parseBlockInstances`.  `exec` resumes at `lastIndex` (the end of the
previous match); `continue` skips a match whose derived variant already has a
truthy (non-empty) recorded content; otherwise the depth scan runs from the
position immediately after the opening tag and, when it finds the balancing
close, records the trimmed substring.  Fuel: each iteration advances
`lastIndex` by the match length ≥ 1, so `length + 1` suffices. -/
def parseLoopF : Nat → Str → Str → Nat → List (Str × Str) → List (Str × Str)
  | 0, _, _, _, acc => acc
  | fuel + 1, html, blockName, lastIndex, acc =>
    match findOpenTagFrom blockName html lastIndex with
    | none => acc
    | some (idx, len, attrs) =>
      let startPos := idx + len
      let classes :=
        match classValue attrs with
        | some v => splitWs v
        | none => []
      let variant := deriveVariant blockName classes
      if truthyStr (lookupKV acc variant) then
        parseLoopF fuel html blockName startPos acc
      else
        match scanClose html 1 startPos with
        | some cIdx =>
          parseLoopF fuel html blockName startPos
            (insertKV acc variant (trimStr (subStr html startPos cIdx)))
        | none => parseLoopF fuel html blockName startPos acc

/-- `parseBlockInstances(html, blockName)` (lines 193-241): mapping from
variant to extracted content, as an association list in insertion order. -/
def parseBlockInstances (html blockName : Str) : List (Str × Str) :=
  parseLoopF (html.length + 1) html blockName 0 []


/-! ### `extractBlockContent` (src/operations/blocks.js lines 243-264).
The network fetch `fetchSourceDocument` is modelled as a function parameter
returning either the page's HTML or an error; the `try/catch` around fetch
and parse skips a failing candidate.  `parseBlockInstances` is total in this
embedding, so the catch corresponds to fetch failures. -/

def extractBlockContent (fetchDoc : Str → Except Unit Str)
    (sourcePaths : List Str) (blockName : Str) :
    Option (List (Str × Str) × Str) :=
  match sourcePaths with
  | [] => none
  | p :: rest =>
    match fetchDoc p with
    | .error _ => extractBlockContent fetchDoc rest blockName
    | .ok html =>
      let content := parseBlockInstances html blockName
      if 0 < content.length then some (content, p)
      else extractBlockContent fetchDoc rest blockName

/-! ### CSS analysis of `analyzeBlock` (src/operations/blocks.js 98-155). -/

/-- Set-style insertion: JavaScript `Set.add` keeps the first occurrence. -/
def insertUniq (l : List Str) (x : Str) : List Str :=
  if l.contains x then l else l ++ [x]

/-- A `/\.([a-zA-Z0-9_-]+)/` match at the head of `t`: `(length, capture)`. -/
def classTokenAt : Str → Option (Nat × Str)
  | '.' :: rest =>
    let run := rest.takeWhile isClassChar
    if run.isEmpty then none else some (1 + run.length, run)
  | _ => none

/-- Leftmost `/\.([a-zA-Z0-9_-]+)/` match in `t`: `(offset, length, capture)`. -/
def classOff : Str → Option (Nat × Nat × Str)
  | [] => none
  | c :: rest =>
    match classTokenAt (c :: rest) with
    | some (len, run) => some (0, len, run)
    | none => (classOff rest).map (fun r => (r.1 + 1, r.2.1, r.2.2))

/-- `matchAll` loop for the class collector: each iteration resumes after the
previous match (length ≥ 2), so fuel `length + 1` suffices. -/
def classLoopF : Nat → Str → List Str → List Str
  | 0, _, acc => acc
  | fuel + 1, t, acc =>
    match classOff t with
    | none => acc
    | some (o, len, run) => classLoopF fuel (t.drop (o + len)) (insertUniq acc run)

/-- Lines 134-139: the deduplicated CSS class names of the stylesheet. -/
def extractClasses (css : Str) : List Str := classLoopF (css.length + 1) css []

/-- A match of `new RegExp('\\.' + blockName + '\\.(\\w+)', 'g')` at the head
of `t`: the capture, a maximal nonempty `\w+` run.  The block name is
interpolated RAW into the pattern; this embedding matches it literally,
which coincides with the source regex exactly when every character of the
block name lies in `[A-Za-z0-9_-]` (no regex metacharacters) — a name such
as `hero+` would act as a quantifier, and `a(b` would throw at `RegExp`
construction.  Theorems quantifying over block names therefore restrict
them to that character set. -/
def variantAt (blockName t : Str) : Option Str :=
  if ('.' :: blockName ++ ['.']).isPrefixOf t then
    let run := (t.drop (blockName.length + 2)).takeWhile isWordChar
    if run.isEmpty then none else some run
  else none

/-- Leftmost variant-pattern match in `t`: `(offset, capture)`. -/
def variantOff (blockName : Str) : Str → Option (Nat × Str)
  | [] => none
  | c :: rest =>
    match variantAt blockName (c :: rest) with
    | some run => some (0, run)
    | none => (variantOff blockName rest).map (fun r => (r.1 + 1, r.2))

/-- `matchAll` loop for the variant pattern: each match has length
`blockName.length + 2 + capture.length ≥ 3`, so fuel `length + 1` suffices. -/
def variantLoopF : Nat → Str → Str → List Str
  | 0, _, _ => []
  | fuel + 1, blockName, t =>
    match variantOff blockName t with
    | none => []
    | some (o, run) =>
      run :: variantLoopF fuel blockName (t.drop (o + blockName.length + 2 + run.length))

/-- Lines 141-149: variant names `.blockName.variant` of the stylesheet,
dropping the block name itself, deduplicated in first-occurrence order. -/
def extractVariants (blockName css : Str) : List Str :=
  (variantLoopF (css.length + 1) blockName css).foldl
    (fun acc run => if run == blockName then acc else insertUniq acc run) []

/-- The structure flags of `detectStructureFeatures` (lines 84-96). -/
structure StructureInfo where
  hasImage : Bool
  hasHeading : Bool
  hasButton : Bool
  hasMultipleItems : Bool
  isBEM : Bool
deriving DecidableEq, Repr

def hasImagePatterns : List Str :=
  ["image".toList, "img".toList, "picture".toList, "photo".toList]

def hasHeadingPatterns : List Str :=
  ["title".toList, "heading".toList, "headline".toList]

def hasButtonPatterns : List Str :=
  ["button".toList, "btn".toList, "cta".toList, "action".toList]

def hasMultipleItemsPatterns : List Str :=
  ["item".toList, "card".toList, "column".toList]

/-- `detectStructureFeatures(classes)` (lines 84-96): each flag is set when
some class name contains one of the fixed substring patterns; `isBEM` when
some class name contains `__` or `--`. -/
def detectStructureFeatures (classes : List Str) : StructureInfo where
  hasImage := classes.any fun c => hasImagePatterns.any fun p => isSubStr p c
  hasHeading := classes.any fun c => hasHeadingPatterns.any fun p => isSubStr p c
  hasButton := classes.any fun c => hasButtonPatterns.any fun p => isSubStr p c
  hasMultipleItems :=
    classes.any fun c => hasMultipleItemsPatterns.any fun p => isSubStr p c
  isBEM := classes.any fun c => isSubStr "__".toList c || isSubStr "--".toList c

/-- Result record of `analyzeBlock` (lines 99-113).  The opportunistic JSDoc
description and default-export function name read from the script text are
informational fields not modelled here (no claim refers to them). -/
structure BlockAnalysis where
  blockName : Str
  hasJS : Bool
  hasCSS : Bool
  variants : List Str
  classes : List Str
  structureInfo : StructureInfo
deriving DecidableEq, Repr

/-- `blockName/fileName` (line 80-82). -/
def buildBlockFilePath (blockName fileName : Str) : Str :=
  blockName ++ ['/'] ++ fileName

/-- The script path `blockName/blockName.js` read by the analyzer. -/
def jsFilePath (blockName : Str) : Str :=
  buildBlockFilePath blockName (blockName ++ ".js".toList)

/-- The stylesheet path `blockName/blockName.css` read by the analyzer. -/
def cssFilePath (blockName : Str) : Str :=
  buildBlockFilePath blockName (blockName ++ ".css".toList)

/-- `analyzeBlock(source, blockName)` (lines 98-155); the content source's
`getFileContent` is a function parameter (`none` = read failed / absent).
A falsy (absent or empty) script leaves `hasJS` false; a falsy stylesheet
leaves `hasCSS` false and the variants, classes and flags at their defaults. -/
def analyzeBlock (getFileContent : Str → Option Str) (blockName : Str) :
    BlockAnalysis :=
  let jsContent := getFileContent (jsFilePath blockName)
  let cssContent := getFileContent (cssFilePath blockName)
  let hasJS := truthyStr jsContent
  if truthyStr cssContent then
    let css := cssContent.getD []
    { blockName := blockName, hasJS := hasJS, hasCSS := true
      variants := extractVariants blockName css
      classes := extractClasses css
      structureInfo := detectStructureFeatures (extractClasses css) }
  else
    { blockName := blockName, hasJS := hasJS, hasCSS := false
      variants := [], classes := []
      structureInfo := ⟨false, false, false, false, false⟩ }

/-- Result record of `checkBlockFiles` (lines 350-362); the constant
`type: 'dir'` field is omitted. -/
structure BlockFileInfo where
  name : Str
  hasJS : Bool
  hasCSS : Bool
deriving DecidableEq, Repr

/-- `checkBlockFiles(source, blockName)` (lines 350-362): `!!content`. -/
def checkBlockFiles (getFileContent : Str → Option Str) (blockName : Str) :
    BlockFileInfo where
  name := blockName
  hasJS := truthyStr (getFileContent (jsFilePath blockName))
  hasCSS := truthyStr (getFileContent (cssFilePath blockName))

/-! ### `generateAutoDescription` and `generateBlockTemplate`
(src/operations/blocks.js lines 157-180 and 266-301). -/

/-- `name.charAt(0).toUpperCase() + name.slice(1)`. -/
def capitalize : Str → Str
  | [] => []
  | c :: rest => c.toUpper :: rest

def joinComma (l : List Str) : Str := List.intercalate ", ".toList l

def joinSpace (l : List Str) : Str := List.intercalate [' '] l

/-- `generateAutoDescription(blockName, structure, variants)` (157-180). -/
def generateAutoDescription (blockName : Str) (st : StructureInfo)
    (variants : List Str) : Str :=
  let contentParts : List Str :=
    (if st.hasImage then ["images".toList] else []) ++
    (if st.hasHeading then ["headings".toList] else []) ++
    (if st.hasButton then ["buttons".toList] else [])
  let parts : List Str :=
    (if st.hasMultipleItems then ["Multi-item layout".toList] else []) ++
    (if 0 < contentParts.length then ["with ".toList ++ joinComma contentParts] else []) ++
    (if 0 < variants.length then ["Variants: ".toList ++ joinComma variants] else [])
  if 0 < parts.length then joinSpace parts
  else capitalize blockName ++ " block".toList

/-- Modelled from the spec (section 4.4), as a check of the claim's wording:
lead with "Multi-item layout" when the multi-item flag is set; append
"with X, Y, Z" listing whichever of images, headings, buttons are present in
that fixed order; append "Variants: a, b, c" when the variant list is
non-empty; when none of these apply, fall back to the capitalized block name
followed by " block".  The pieces are joined by single spaces. -/
def autoDescriptionSpec (blockName : Str) (st : StructureInfo)
    (variants : List Str) : Str :=
  let present : List Str :=
    (if st.hasImage then ["images".toList] else []) ++
    (if st.hasHeading then ["headings".toList] else []) ++
    (if st.hasButton then ["buttons".toList] else [])
  if !st.hasMultipleItems && present.isEmpty && variants.isEmpty then
    capitalize blockName ++ " block".toList
  else
    joinSpace
      ((if st.hasMultipleItems then ["Multi-item layout".toList] else []) ++
       (if present.isEmpty then [] else ["with ".toList ++ joinComma present]) ++
       (if variants.isEmpty then [] else ["Variants: ".toList ++ joinComma variants]))

/-- `variants?.length > 0 ? variants : ['']` (line 270). -/
def variantsToGenerate (variants : List Str) : List Str :=
  if 0 < variants.length then variants else [[]]

/-- `blockContent?.[variant]` — optional chaining on the content mapping. -/
def contentLookup (blockContent : Option (Str → Option Str)) (variant : Str) :
    Option Str :=
  match blockContent with
  | some f => f variant
  | none => none

/-- `blockContent?.[variant] || blockContent?.[''] || ''` (line 276). -/
def contentOf (blockContent : Option (Str → Option Str)) (variant : Str) : Str :=
  jsOrStr (contentLookup blockContent variant)
    (jsOrStr (contentLookup blockContent []) [])

/-- The per-variant section template (lines 278-291), rendered with an
already-chosen body `content`. -/
def sectionRender (blockName capitalizedName autoDescription variant content : Str) :
    Str :=
  let variantName :=
    if variant.isEmpty then capitalizedName
    else capitalizedName ++ " (".toList ++ variant ++ [')']
  let classAttr : Str := if variant.isEmpty then [] else ' ' :: variant
  "    <div>\n      <div class=\"library-metadata\">\n        <div>\n          <div>name</div>\n          <div>".toList ++
  variantName ++
  "</div>\n        </div>\n        <div>\n          <div>description</div>\n          <div>".toList ++
  autoDescription ++
  "</div>\n        </div>\n      </div>\n      <div class=\"".toList ++
  blockName ++ classAttr ++
  "\">\n".toList ++ content ++ "      </div>\n    </div>".toList

/-- One section of `blockSections` (lines 272-291). -/
def sectionFor (blockName capitalizedName autoDescription : Str)
    (blockContent : Option (Str → Option Str)) (variant : Str) : Str :=
  sectionRender blockName capitalizedName autoDescription variant
    (contentOf blockContent variant)

/-- The `variantsToGenerate.map(...)` list of sections (line 272). -/
def sectionsList (blockName : Str) (description : Option Str)
    (variants : List Str) (st : StructureInfo)
    (blockContent : Option (Str → Option Str)) : List Str :=
  let capitalizedName := capitalize blockName
  let autoDescription :=
    jsOrStr description (generateAutoDescription blockName st variants)
  (variantsToGenerate variants).map
    (sectionFor blockName capitalizedName autoDescription blockContent)

/-- `generateBlockTemplate` (lines 266-301). -/
def generateBlockTemplate (blockName : Str) (description : Option Str)
    (variants : List Str) (st : StructureInfo)
    (blockContent : Option (Str → Option Str)) : Str :=
  "<body>\n  <header></header>\n  <main>\n".toList ++
  List.intercalate ['\n'] (sectionsList blockName description variants st blockContent) ++
  "\n  </main>\n  <footer></footer>\n</body>".toList

/-! ### `checkBlockDocExists` (src/operations/blocks.js lines 322-348).
The admin request is modelled by its outcome (success, or an error carrying
its message); the path/url fields built by the library helpers are outside
src/ and not modelled.  The block-name validation that precedes the request
rejects invalid names before any read; the embedding covers the try/catch
around the read itself. -/

def checkBlockDocExists (request : Except Str Unit) : Except Str Bool :=
  match request with
  | .ok _ => .ok true
  | .error m => if isSubStr "404".toList m then .ok false else .error m

/-! ### `resolveBlockSource` (src/common/block-utils.js lines 168-211).
Filesystem effects are parameters: `detected` is the result of
`detectLocalBlocksDir()` (the auto-detected `blocks` directory, or `none`),
`git` the result of `detectGitRemote()`. -/

structure GithubCfg where
  org : Str
  repo : Str
  branch : Option Str
  blocksPath : Option Str
deriving DecidableEq, Repr

structure GitMeta where
  org : Str
  repo : Str
  remote : Str
deriving DecidableEq, Repr

structure ResolveArgs where
  github : Option GithubCfg
  useLocal : Option Bool
  localBlocksPath : Option Str
deriving Repr

inductive BlockSource where
  | github (org repo branch blocksPath : Str)
  | localFs (path : Str)
deriving DecidableEq, Repr

inductive SourceMetadata where
  | github (cfg : GithubCfg)
  | localFs (path : Str) (git : Option GitMeta)
deriving DecidableEq, Repr

def localNotFoundMsg : Str := "Local blocks directory not found".toList

def threeWaysMsg : Str :=
  ("No block source specified. Either:\n" ++
   "1. Provide github: \x7b org, repo \x7d for remote source\n" ++
   "2. Set useLocal: true for local blocks\n" ++
   "3. Run from an EDS project directory (auto-detect)").toList

/-- `resolveBlockSource(args)` (lines 168-211).  `args.useLocal` is tested
for truthiness (`some true`); `args.localBlocksPath || detectLocalBlocksDir()`
uses string truthiness; the auto-detect branch ignores `localBlocksPath`. -/
def resolveBlockSource (args : ResolveArgs) (detected : Option Str)
    (git : Option GitMeta) : Except Str (BlockSource × SourceMetadata) :=
  match args.github with
  | some g =>
    .ok (.github g.org g.repo (jsOrStr g.branch "main".toList)
          (jsOrStr g.blocksPath "blocks".toList),
         .github g)
  | none =>
    if args.useLocal = some true then
      match jsOrOpt args.localBlocksPath detected with
      | some p =>
        if p.isEmpty then .error localNotFoundMsg
        else .ok (.localFs p, .localFs p git)
      | none => .error localNotFoundMsg
    else
      match detected with
      | some p =>
        if p.isEmpty then .error threeWaysMsg
        else .ok (.localFs p, .localFs p git)
      | none => .error threeWaysMsg

/-! ### Shared helper lemmas. -/

/-- `List.any` only depends on membership, hence is permutation-invariant. -/
theorem any_perm {α : Type} {l l' : List α} (h : l.Perm l') (f : α → Bool) :
    l.any f = l'.any f := by
  cases ha : l.any f <;> cases hb : l'.any f <;> try rfl
  · rw [List.any_eq_true] at hb
    obtain ⟨x, hx, hfx⟩ := hb
    have : l.any f = true := List.any_eq_true.mpr ⟨x, h.mem_iff.mpr hx, hfx⟩
    rw [ha] at this; exact absurd this (by simp)
  · rw [List.any_eq_true] at ha
    obtain ⟨x, hx, hfx⟩ := ha
    have : l'.any f = true := List.any_eq_true.mpr ⟨x, h.mem_iff.mp hx, hfx⟩
    rw [hb] at this; exact absurd this (by simp)

/-- Keys other than the written one are unaffected by an object write. -/
theorem lookupKV_insertKV_ne (acc : List (Str × Str)) (k k' v : Str)
    (h : k' ≠ k) : lookupKV (insertKV acc k v) k' = lookupKV acc k' := by
  induction acc with
  | nil =>
    simp [insertKV, lookupKV]
    exact fun hh => h hh.symm
  | cons e rest ih =>
    obtain ⟨k0, v0⟩ := e
    by_cases h0 : k0 = k
    · subst h0
      simp only [insertKV, if_pos rfl, lookupKV]
      rw [if_neg fun hh => h hh.symm, if_neg fun hh => h hh.symm]
    · simp only [insertKV, if_neg h0, lookupKV]
      by_cases h1 : k0 = k' <;> simp [h1, ih]

/-! ### Claim C1. -/

def c1Html : Str :=
  "<div class=\"hero dark\"><div><span>X</span></div></div>".toList

def c1HtmlUnbalanced : Str := "<div class=\"hero dark\"><div>X".toList

/-- C1: the block-content extractor's inner scan, started immediately after a
matched opening tag with depth 1, is exactly the search for the first close
tag at which the running open/close count balances (spec-side
`tokenStreamF` / `firstBalancedClose`); when the scan succeeds the stream
decomposes at the returned close with equally many opens and closes before
it; on the example `<div class="hero dark"><div><span>X</span></div></div>`
extracting "hero" maps "dark" to `<div><span>X</span></div>` (the inner div
balanced, trimmed); when no balanced close exists before the end of the
document the instance is dropped and nothing is recorded. -/
theorem c1_scan_balanced_close :
    (∀ (fuel : Nat) (s : Str) (d pos : Nat),
        scanCloseF fuel s d pos = firstBalancedClose d (tokenStreamF fuel s pos)) ∧
    (∀ (s : Str) (pos cIdx : Nat), scanClose s 1 pos = some cIdx →
        ∃ pre post, tokenStreamF (s.length + 1) s pos = pre ++ (false, cIdx) :: post ∧
          countOpens pre = countCloses pre) ∧
    parseBlockInstances c1Html "hero".toList
      = [("dark".toList, "<div><span>X</span></div>".toList)] ∧
    parseBlockInstances c1HtmlUnbalanced "hero".toList = [] := by
  refine ⟨scanCloseF_eq_firstBalancedClose, ?_, by decide, by decide⟩
  intro s pos cIdx h
  rw [scanClose, scanCloseF_eq_firstBalancedClose] at h
  obtain ⟨pre, post, hdec, hbal⟩ := firstBalancedClose_balance _ 1 cIdx (by omega) h
  exact ⟨pre, post, hdec, by omega⟩

/-- Witness for C1 at a concrete input: on the example document the scan
from position 23 returns close index 48, so the stream decomposes there with
balanced counts. -/
theorem c1_scan_balanced_close_witness :
    ∃ pre post, tokenStreamF (c1Html.length + 1) c1Html 23 = pre ++ (false, 48) :: post ∧
      countOpens pre = countCloses pre :=
  c1_scan_balanced_close.2.1 c1Html 23 48 (by decide)

/-! ### Claim C5. -/

/-- C5: `detectStructureFeatures` is order-independent (permutation
invariant) and idempotent (deterministic: recomputation yields identical
flags); each content flag is true exactly when some class name contains one
of its fixed substring patterns, and the BEM flag exactly when some class
name contains `__` or `--`. -/
theorem c5_detect_structure_features :
    (∀ (cs cs' : List Str), cs.Perm cs' →
        detectStructureFeatures cs = detectStructureFeatures cs') ∧
    (∀ cs : List Str, detectStructureFeatures cs = detectStructureFeatures cs) ∧
    (∀ cs : List Str,
      ((detectStructureFeatures cs).hasImage = true ↔
        ∃ c ∈ cs, ∃ p ∈ hasImagePatterns, isSubStr p c = true) ∧
      ((detectStructureFeatures cs).hasHeading = true ↔
        ∃ c ∈ cs, ∃ p ∈ hasHeadingPatterns, isSubStr p c = true) ∧
      ((detectStructureFeatures cs).hasButton = true ↔
        ∃ c ∈ cs, ∃ p ∈ hasButtonPatterns, isSubStr p c = true) ∧
      ((detectStructureFeatures cs).hasMultipleItems = true ↔
        ∃ c ∈ cs, ∃ p ∈ hasMultipleItemsPatterns, isSubStr p c = true) ∧
      ((detectStructureFeatures cs).isBEM = true ↔
        ∃ c ∈ cs, isSubStr "__".toList c = true ∨ isSubStr "--".toList c = true)) := by
  refine ⟨?_, fun _ => rfl, ?_⟩
  · intro cs cs' h
    simp only [detectStructureFeatures, StructureInfo.mk.injEq]
    exact ⟨any_perm h _, any_perm h _, any_perm h _, any_perm h _, any_perm h _⟩
  · intro cs
    simp [detectStructureFeatures, List.any_eq_true, Bool.or_eq_true]

/-- Witness for C5 at a concrete input: swapping a two-element class list
leaves the flags unchanged. -/
theorem c5_detect_structure_features_witness :
    detectStructureFeatures ["promo".toList, "card-img".toList]
      = detectStructureFeatures ["card-img".toList, "promo".toList] :=
  c5_detect_structure_features.1 _ _ (List.Perm.swap _ _ _)

/-! ### Claim C7. -/

/-- C7: the documentation-existence check reports `exists = true` exactly
when the read succeeds, `exists = false` (a normal result, not an error)
exactly when the read fails with a message containing "404", and propagates
any other failure unmodified; the "404" substring is the sole signal. -/
theorem c7_check_doc_exists :
    (∀ r : Except Str Unit, checkBlockDocExists r = .ok true ↔ r = .ok ()) ∧
    (∀ m : Str, checkBlockDocExists (.error m) = .ok false ↔
        isSubStr "404".toList m = true) ∧
    (∀ m : Str, isSubStr "404".toList m = false →
        checkBlockDocExists (.error m) = .error m) := by
  refine ⟨?_, ?_, ?_⟩
  · intro r
    cases r with
    | ok u => cases u; simp [checkBlockDocExists]
    | error m =>
      simp only [checkBlockDocExists]
      split <;> simp
  · intro m
    simp only [checkBlockDocExists]
    split <;> simp_all
  · intro m h
    simp only [checkBlockDocExists]
    rw [if_neg (by rw [h]; simp)]

/-- Witness for C7 at a concrete input: a non-404 error is propagated. -/
theorem c7_check_doc_exists_witness :
    checkBlockDocExists (.error "HTTP 500: server error".toList)
      = .error "HTTP 500: server error".toList :=
  c7_check_doc_exists.2.2 _ (by decide)

/-! ### Claim C2. -/

def c2HtmlEmptyFirst : Str :=
  "<div class=\"hero dark\"></div><div class=\"hero dark\"><p>B</p></div>".toList

def c2HtmlDup : Str :=
  "<div class=\"hero dark\"><p>A</p></div><div class=\"hero dark\"><p>B</p></div>".toList

/-- Counterexample to C2: in
`<div class="hero dark"></div><div class="hero dark"><p>B</p></div>` the
first "dark" instance is captured with empty content, yet the second match
with the same variant is NOT skipped: it is scanned and its content
`<p>B</p>` overwrites the entry, because the dedup test
`if (blockInstances[variant])` uses JavaScript truthiness and the empty
string is falsy.  Under the claim the retained content would have been the
first instance's (empty) content. -/
theorem c2_counterexample :
    parseBlockInstances c2HtmlEmptyFirst "hero".toList
      = [("dark".toList, "<p>B</p>".toList)] ∧
    "<p>B</p>".toList ≠ ([] : Str) := by
  exact ⟨by decide, by decide⟩

/-- C2 (amended): the variant of a matched instance is the first class token
that is neither the block name nor block-name-hyphen-prefixed (empty string
when none exists) — stated as the `find?` characterization; a later match
whose derived variant was already captured with NON-EMPTY content is skipped
entirely (the recorded entry survives the rest of the loop unchanged); a
variant captured with empty content does not block later matches.  The two
named examples hold: with non-empty first content only the first of two
"hero dark" instances is retained, and `<div class="hero"><p>A</p></div>`
yields the base-variant mapping. -/
theorem c2_amended_variant_dedup :
    (∀ (blockName : Str) (classes : List Str),
      (∃ pre post, classes = pre ++ deriveVariant blockName classes :: post ∧
          isVariantToken blockName (deriveVariant blockName classes) = true ∧
          ∀ u ∈ pre, isVariantToken blockName u = false) ∨
      (deriveVariant blockName classes = [] ∧
          ∀ u ∈ classes, isVariantToken blockName u = false)) ∧
    (∀ (fuel : Nat) (html blockName : Str) (i : Nat) (acc : List (Str × Str))
        (v c : Str), lookupKV acc v = some c → c ≠ [] →
        lookupKV (parseLoopF fuel html blockName i acc) v = some c) ∧
    parseBlockInstances c2HtmlDup "hero".toList
      = [("dark".toList, "<p>A</p>".toList)] ∧
    parseBlockInstances "<div class=\"hero\"><p>A</p></div>".toList "hero".toList
      = [([], "<p>A</p>".toList)] := by
  refine ⟨?_, ?_, by decide, by decide⟩
  · intro blockName classes
    induction classes with
    | nil => right; simp [deriveVariant]
    | cons c rest ih =>
      by_cases hc : isVariantToken blockName c = true
      · left
        refine ⟨[], rest, ?_, ?_, by simp⟩ <;>
          simp [deriveVariant, List.find?_cons_of_pos _ hc, hc]
      · have hfind : (c :: rest).find? (isVariantToken blockName)
            = rest.find? (isVariantToken blockName) :=
          List.find?_cons_of_neg _ (by simp_all)
        have hdv : deriveVariant blockName (c :: rest) = deriveVariant blockName rest := by
          simp [deriveVariant, hfind]
        rcases ih with ⟨pre, post, hdec, hok, hpre⟩ | ⟨hnil, hall⟩
        · left
          refine ⟨c :: pre, post, ?_, ?_, ?_⟩
          · rw [hdv]
            show c :: rest = c :: (pre ++ deriveVariant blockName rest :: post)
            exact congrArg (List.cons c) hdec
          · rw [hdv]; exact hok
          · intro u hu
            rcases List.mem_cons.mp hu with h | h
            · subst h; simpa using hc
            · exact hpre u h
        · right
          refine ⟨by rw [hdv]; exact hnil, ?_⟩
          intro u hu
          rcases List.mem_cons.mp hu with h | h
          · subst h; simpa using hc
          · exact hall u h
  · intro fuel
    induction fuel with
    | zero => intro html blockName i acc v c hl hc; simpa [parseLoopF] using hl
    | succ f ih =>
      intro html blockName i acc v c hl hc
      simp only [parseLoopF]
      cases hfind : findOpenTagFrom blockName html i with
      | none => simpa using hl
      | some r =>
        obtain ⟨idx, len, attrs⟩ := r
        set variant := deriveVariant blockName
          (match classValue attrs with
           | some v => splitWs v
           | none => []) with hvar
        by_cases htr : truthyStr (lookupKV acc variant) = true
        · simp only [htr, if_true]
          exact ih html blockName (idx + len) acc v c hl hc
        · simp only [Bool.not_eq_true] at htr
          simp only [htr, Bool.false_eq_true, if_false]
          have hne : v ≠ variant := by
            intro he
            rw [← he, hl] at htr
            simp [truthyStr, hc] at htr
          cases hscan : scanClose html 1 (idx + len) with
          | none => exact ih html blockName (idx + len) acc v c hl hc
          | some cIdx =>
            refine ih html blockName (idx + len) _ v c ?_ hc
            rw [lookupKV_insertKV_ne _ _ _ _ hne]
            exact hl

/-- Witness for C2 (amended) at a concrete input: a non-empty recorded
"dark" entry survives a full run of the loop over a document that matches
"dark" again. -/
theorem c2_amended_variant_dedup_witness :
    lookupKV
      (parseLoopF (c2HtmlDup.length + 1) c2HtmlDup "hero".toList 0
        [("dark".toList, "kept".toList)])
      "dark".toList = some "kept".toList :=
  c2_amended_variant_dedup.2.1 (c2HtmlDup.length + 1) c2HtmlDup "hero".toList 0
    [("dark".toList, "kept".toList)] "dark".toList "kept".toList (by decide) (by decide)

/-! ### Claim C6. -/

/-- C6: with no explicit description, the generator synthesizes one exactly
as the spec's recipe states (refinement against `autoDescriptionSpec`):
"Multi-item layout" lead, "with images, headings, buttons" in fixed order,
"Variants: ..." when non-empty, `<Capitalized name> block` fallback; and
with an empty variant list the generated document has exactly one section
(the unnamed base variant).  Two grounding instances are included. -/
theorem c6_auto_description_and_sections :
    (∀ (blockName : Str) (st : StructureInfo) (variants : List Str),
        generateAutoDescription blockName st variants
          = autoDescriptionSpec blockName st variants) ∧
    (∀ (blockName : Str) (description : Option Str) (st : StructureInfo)
        (blockContent : Option (Str → Option Str)),
        (sectionsList blockName description [] st blockContent).length = 1) ∧
    generateAutoDescription "card".toList ⟨true, false, true, true, false⟩
        ["dark".toList, "wide".toList]
      = "Multi-item layout with images, buttons Variants: dark, wide".toList ∧
    generateAutoDescription "hero".toList ⟨false, false, false, false, false⟩ []
      = "Hero block".toList := by
  refine ⟨?_, ?_, by decide, by decide⟩
  · intro blockName st variants
    obtain ⟨hi, hh, hb, hm, hbem⟩ := st
    cases hi <;> cases hh <;> cases hb <;> cases hm <;> cases variants <;>
      simp [generateAutoDescription, autoDescriptionSpec]
  · intro blockName description st blockContent
    simp [sectionsList, variantsToGenerate]

/-! ### Claim C9. -/

/-- Pointwise update of a content source at one path. -/
def overrideAt (src : Str → Option Str) (p : Str) (v : Option Str) :
    Str → Option Str :=
  fun q => if q = p then v else src q

theorem jsFilePath_ne_cssFilePath (blockName : Str) :
    jsFilePath blockName ≠ cssFilePath blockName := by
  intro h
  have hlen := congrArg List.length h
  simp [jsFilePath, cssFilePath, buildBlockFilePath] at hlen

/-- C9: a script or stylesheet read that returns the empty string is
indistinguishable, through `analyzeBlock` and `checkBlockFiles`, from an
absent file: overriding the path with empty content or with no content
yields identical results, and the corresponding `hasJS` / `hasCSS` flag is
false. -/
theorem c9_empty_file_like_absent :
    ∀ (src : Str → Option Str) (blockName : Str),
      analyzeBlock (overrideAt src (jsFilePath blockName) (some [])) blockName
        = analyzeBlock (overrideAt src (jsFilePath blockName) none) blockName ∧
      (analyzeBlock (overrideAt src (jsFilePath blockName) (some [])) blockName).hasJS
        = false ∧
      analyzeBlock (overrideAt src (cssFilePath blockName) (some [])) blockName
        = analyzeBlock (overrideAt src (cssFilePath blockName) none) blockName ∧
      (analyzeBlock (overrideAt src (cssFilePath blockName) (some [])) blockName).hasCSS
        = false ∧
      checkBlockFiles (overrideAt src (jsFilePath blockName) (some [])) blockName
        = checkBlockFiles (overrideAt src (jsFilePath blockName) none) blockName ∧
      (checkBlockFiles (overrideAt src (jsFilePath blockName) (some [])) blockName).hasJS
        = false ∧
      checkBlockFiles (overrideAt src (cssFilePath blockName) (some [])) blockName
        = checkBlockFiles (overrideAt src (cssFilePath blockName) none) blockName ∧
      (checkBlockFiles (overrideAt src (cssFilePath blockName) (some [])) blockName).hasCSS
        = false := by
  intro src blockName
  have hne := jsFilePath_ne_cssFilePath blockName
  have hne' := Ne.symm hne
  refine ⟨?_, ?_, ?_, ?_, ?_, ?_, ?_, ?_⟩ <;>
    simp [analyzeBlock, checkBlockFiles, overrideAt, truthyStr, hne, hne']
  split <;> rfl

/-! ### Claim C10. -/

/-- C10: in the template generator, a named variant whose entry in the
content mapping is the empty string gets the base-variant content instead
(`blockContent?.[variant] || blockContent?.[''] || ''` — the empty entry is
falsy); its section renders with that base content, and its body is empty
exactly when the base entry is itself absent or empty. -/
theorem c10_empty_variant_uses_base :
    ∀ (blockName capitalizedName autoDescription : Str)
      (bc : Str → Option Str) (variant : Str),
      bc variant = some [] →
        contentOf (some bc) variant = jsOrStr (bc []) [] ∧
        contentOf (some bc) variant = contentOf (some bc) [] ∧
        sectionFor blockName capitalizedName autoDescription (some bc) variant
          = sectionRender blockName capitalizedName autoDescription variant
              (jsOrStr (bc []) []) ∧
        (contentOf (some bc) variant = [] ↔ bc [] = none ∨ bc [] = some []) := by
  intro bn cn ad bc v h
  have h1 : contentOf (some bc) v = jsOrStr (bc []) [] := by
    simp [contentOf, contentLookup, h, jsOrStr]
  have h2 : contentOf (some bc) [] = jsOrStr (bc []) [] := by
    cases hb : bc [] with
    | none => simp [contentOf, contentLookup, jsOrStr, hb]
    | some s =>
      by_cases he : s.isEmpty <;>
        simp [contentOf, contentLookup, jsOrStr, hb, he]
  refine ⟨h1, h1.trans h2.symm, by simp only [sectionFor, h1], ?_⟩
  rw [h1]
  cases hb : bc [] with
  | none => simp [jsOrStr]
  | some s =>
    by_cases he : s.isEmpty
    · simp [jsOrStr, he, List.isEmpty_iff.mp he]
    · simp [jsOrStr, he]

/-- A concrete content mapping: "dark" explicitly empty, base non-empty. -/
def c10Content : Str → Option Str := fun q =>
  if q = "dark".toList then some []
  else if q = [] then some "<p>base</p>".toList
  else none

/-- Witness for C10 at a concrete input: the "dark" section's body is the
base entry. -/
theorem c10_empty_variant_uses_base_witness :
    contentOf (some c10Content) "dark".toList = jsOrStr (c10Content []) [] :=
  (c10_empty_variant_uses_base [] [] [] c10Content "dark".toList (by decide)).1

/-! ### Claim C3. -/

/-- Counterexample to C3: an explicit local path WITHOUT the use-local flag
does not trigger strategy (2); with no auto-detected `blocks` directory,
resolution fails with the configuration error instead of yielding a local
source rooted at the given path. -/
theorem c3_counterexample :
    resolveBlockSource ⟨none, none, some "/custom/blocks".toList⟩ none none
      = .error threeWaysMsg := by
  rfl

/-- C3 (amended): resolution strategies in order — (1) explicit remote
configuration (branch default "main", root path default "blocks") yields the
remote source; (2) the explicit use-local flag yields a local source rooted
at the explicit path if one is (truthily) given, else at the auto-detected
directory, failing with "Local blocks directory not found" when neither is
available; an explicit local path WITHOUT the flag is ignored by this
strategy; (3) otherwise auto-detection of a `blocks` directory yields a
local source; (4) otherwise resolution fails with the configuration error
describing the three ways to supply a source. -/
theorem c3_amended_resolution_order :
    ∀ (args : ResolveArgs) (detected : Option Str) (git : Option GitMeta),
      (∀ g, args.github = some g →
        resolveBlockSource args detected git
          = .ok (.github g.org g.repo (jsOrStr g.branch "main".toList)
                  (jsOrStr g.blocksPath "blocks".toList), .github g)) ∧
      (args.github = none → args.useLocal = some true →
        ∀ p, args.localBlocksPath = some p → p ≠ [] →
          resolveBlockSource args detected git = .ok (.localFs p, .localFs p git)) ∧
      (args.github = none → args.useLocal = some true →
        truthyStr args.localBlocksPath = false →
        ∀ q, detected = some q → q ≠ [] →
          resolveBlockSource args detected git = .ok (.localFs q, .localFs q git)) ∧
      (args.github = none → args.useLocal = some true →
        truthyStr args.localBlocksPath = false → truthyStr detected = false →
          resolveBlockSource args detected git = .error localNotFoundMsg) ∧
      (args.github = none → ¬ args.useLocal = some true →
        ∀ q, detected = some q → q ≠ [] →
          resolveBlockSource args detected git = .ok (.localFs q, .localFs q git)) ∧
      (args.github = none → ¬ args.useLocal = some true →
        truthyStr detected = false →
          resolveBlockSource args detected git = .error threeWaysMsg) := by
  intro args detected git
  refine ⟨?_, ?_, ?_, ?_, ?_, ?_⟩
  · intro g hg
    simp [resolveBlockSource, hg]
  · intro hg hu p hp hpne
    have hpe : p.isEmpty = false := by simpa [List.isEmpty_iff] using hpne
    simp [resolveBlockSource, hg, hu, hp, jsOrOpt, hpe]
  · intro hg hu hl q hq hqne
    have hqe : q.isEmpty = false := by simpa [List.isEmpty_iff] using hqne
    cases hlb : args.localBlocksPath with
    | none => simp [resolveBlockSource, hg, hu, hlb, hq, jsOrOpt, hqe]
    | some s =>
      rw [hlb] at hl
      have hs : s.isEmpty = true := by simpa [truthyStr] using hl
      simp [resolveBlockSource, hg, hu, hlb, hq, jsOrOpt, hs, hqe]
  · intro hg hu hl hd
    cases hlb : args.localBlocksPath with
    | none =>
      cases hdet : detected with
      | none => simp [resolveBlockSource, hg, hu, hlb, hdet, jsOrOpt]
      | some q =>
        rw [hdet] at hd
        have hq : q.isEmpty = true := by simpa [truthyStr] using hd
        simp [resolveBlockSource, hg, hu, hlb, hdet, jsOrOpt, hq]
    | some s =>
      rw [hlb] at hl
      have hs : s.isEmpty = true := by simpa [truthyStr] using hl
      cases hdet : detected with
      | none => simp [resolveBlockSource, hg, hu, hlb, hdet, jsOrOpt, hs]
      | some q =>
        rw [hdet] at hd
        have hq : q.isEmpty = true := by simpa [truthyStr] using hd
        simp [resolveBlockSource, hg, hu, hlb, hdet, jsOrOpt, hs, hq]
  · intro hg hu q hq hqne
    have hqe : q.isEmpty = false := by simpa [List.isEmpty_iff] using hqne
    simp [resolveBlockSource, hg, hu, hq, hqe]
  · intro hg hu hd
    cases hdet : detected with
    | none => simp [resolveBlockSource, hg, hu, hdet]
    | some q =>
      rw [hdet] at hd
      have hq : q.isEmpty = true := by simpa [truthyStr] using hd
      simp [resolveBlockSource, hg, hu, hdet, hq]

/-- Witness for C3 (amended) at a concrete input: without the use-local
flag, auto-detection wins and the explicit local path is ignored. -/
theorem c3_amended_resolution_order_witness :
    resolveBlockSource ⟨none, none, some "/custom/blocks".toList⟩
      (some "./blocks".toList) none
      = .ok (.localFs "./blocks".toList, .localFs "./blocks".toList none) :=
  (c3_amended_resolution_order ⟨none, none, some "/custom/blocks".toList⟩
      (some "./blocks".toList) none).2.2.2.2.1 rfl (by simp)
    "./blocks".toList rfl (by decide)

/-! ### Claim C8. -/

/-- C8: candidates are tried in order; a fetch error skips to the next
candidate; the result is the instance mapping of the first candidate whose
HTML yields at least one instance, together with that candidate's path
(`some (mapping, path)`); when no candidate yields an instance the result is
`none` — "no content found", not an error. -/
theorem c8_extract_content_candidates :
    ∀ (fetchDoc : Str → Except Unit Str) (paths : List Str) (blockName : Str),
      (extractBlockContent fetchDoc paths blockName = none ↔
        ∀ p ∈ paths, ∀ h, fetchDoc p = .ok h →
          parseBlockInstances h blockName = []) ∧
      (∀ (m : List (Str × Str)) (p : Str),
        extractBlockContent fetchDoc paths blockName = some (m, p) ↔
          ∃ pre post h, paths = pre ++ p :: post ∧
            (∀ q ∈ pre, ∀ h', fetchDoc q = .ok h' →
              parseBlockInstances h' blockName = []) ∧
            fetchDoc p = .ok h ∧ parseBlockInstances h blockName = m ∧ m ≠ []) := by
  intro fetchDoc paths blockName
  induction paths with
  | nil =>
    constructor
    · simp [extractBlockContent]
    · intro m p
      simp [extractBlockContent]
  | cons p0 rest ih =>
    cases hf : fetchDoc p0 with
    | error e =>
      have hstep : extractBlockContent fetchDoc (p0 :: rest) blockName
          = extractBlockContent fetchDoc rest blockName := by
        simp [extractBlockContent, hf]
      constructor
      · rw [hstep, ih.1]
        constructor
        · intro hr q hq h hfq
          rcases List.mem_cons.mp hq with rfl | hq'
          · rw [hf] at hfq; cases hfq
          · exact hr q hq' h hfq
        · intro hall q hq h hfq
          exact hall q (List.mem_cons_of_mem _ hq) h hfq
      · intro m p
        rw [hstep, ih.2 m p]
        constructor
        · rintro ⟨pre, post, h, hdec, hpre, hok, hparse, hne⟩
          refine ⟨p0 :: pre, post, h, by simp [hdec], ?_, hok, hparse, hne⟩
          intro q hq h' hfq
          rcases List.mem_cons.mp hq with rfl | hq'
          · rw [hf] at hfq; cases hfq
          · exact hpre q hq' h' hfq
        · rintro ⟨pre, post, h, hdec, hpre, hok, hparse, hne⟩
          cases pre with
          | nil =>
            simp only [List.nil_append, List.cons.injEq] at hdec
            obtain ⟨h1, h2⟩ := hdec
            subst h1
            rw [hf] at hok; cases hok
          | cons q pre' =>
            simp only [List.cons_append, List.cons.injEq] at hdec
            obtain ⟨h1, hdec'⟩ := hdec
            subst h1
            exact ⟨pre', post, h, hdec',
              fun q' hq' => hpre q' (List.mem_cons_of_mem _ hq'), hok, hparse, hne⟩
    | ok html =>
      by_cases hc : parseBlockInstances html blockName = []
      · have hstep : extractBlockContent fetchDoc (p0 :: rest) blockName
            = extractBlockContent fetchDoc rest blockName := by
          simp [extractBlockContent, hf, hc]
        constructor
        · rw [hstep, ih.1]
          constructor
          · intro hr q hq h hfq
            rcases List.mem_cons.mp hq with rfl | hq'
            · rw [hf] at hfq
              injection hfq with hh
              subst hh; exact hc
            · exact hr q hq' h hfq
          · intro hall q hq h hfq
            exact hall q (List.mem_cons_of_mem _ hq) h hfq
        · intro m p
          rw [hstep, ih.2 m p]
          constructor
          · rintro ⟨pre, post, h, hdec, hpre, hok, hparse, hne⟩
            refine ⟨p0 :: pre, post, h, by simp [hdec], ?_, hok, hparse, hne⟩
            intro q hq h' hfq
            rcases List.mem_cons.mp hq with rfl | hq'
            · rw [hf] at hfq
              injection hfq with hh
              subst hh; exact hc
            · exact hpre q hq' h' hfq
          · rintro ⟨pre, post, h, hdec, hpre, hok, hparse, hne⟩
            cases pre with
            | nil =>
              simp only [List.nil_append, List.cons.injEq] at hdec
              obtain ⟨h1, h2⟩ := hdec
              subst h1
              rw [hf] at hok
              injection hok with hh
              subst hh
              exact absurd (hparse ▸ hc) hne
            | cons q pre' =>
              simp only [List.cons_append, List.cons.injEq] at hdec
              obtain ⟨h1, hdec'⟩ := hdec
              subst h1
              exact ⟨pre', post, h, hdec',
                fun q' hq' => hpre q' (List.mem_cons_of_mem _ hq'), hok, hparse, hne⟩
      · have hlen : 0 < (parseBlockInstances html blockName).length :=
          List.length_pos.mpr hc
        have hstep : extractBlockContent fetchDoc (p0 :: rest) blockName
            = some (parseBlockInstances html blockName, p0) := by
          simp [extractBlockContent, hf, hlen]
        constructor
        · rw [hstep]
          constructor
          · intro hnone; cases hnone
          · intro hall
            exact absurd (hall p0 (List.mem_cons_self _ _) html hf) hc
        · intro m p
          rw [hstep]
          constructor
          · intro hsome
            rw [Option.some.injEq, Prod.mk.injEq] at hsome
            obtain ⟨h1, h2⟩ := hsome
            subst h1; subst h2
            exact ⟨[], rest, html, rfl, by simp, hf, rfl, hc⟩
          · rintro ⟨pre, post, h, hdec, hpre, hok, hparse, hne⟩
            cases pre with
            | nil =>
              simp only [List.nil_append, List.cons.injEq] at hdec
              obtain ⟨h1, h2⟩ := hdec
              subst h1
              rw [hf] at hok
              injection hok with hh
              subst hh
              rw [hparse]
            | cons q pre' =>
              simp only [List.cons_append, List.cons.injEq] at hdec
              obtain ⟨h1, _⟩ := hdec
              subst h1
              exact absurd (hpre p0 (List.mem_cons_self _ _) html hf) hc

/-- Witness for C8 at a concrete input: a single failing candidate yields
"no content found". -/
theorem c8_extract_content_candidates_witness :
    extractBlockContent (fun _ => .error ()) ["/a".toList] "hero".toList = none :=
  (c8_extract_content_candidates (fun _ => .error ()) ["/a".toList]
      "hero".toList).1.mpr (by intro p hp h hfq; cases hfq)

/-! ### Claim C4. -/

theorem isPrefixOf_append_cancel (l u v : Str) :
    (l ++ u).isPrefixOf (l ++ v) = u.isPrefixOf v := by
  induction l with
  | nil => rfl
  | cons c l' ih => simp [List.isPrefixOf, ih]

theorem variantAt_cons_ne_dot (B : Str) (c : Char) (t : Str) (hc : c ≠ '.') :
    variantAt B (c :: t) = none := by
  have hbc : ('.' == c) = false := beq_eq_false_iff_ne.mpr (Ne.symm hc)
  simp [variantAt, List.isPrefixOf, hbc]

theorem variantOff_cons_none (B : Str) (c : Char) (t : Str)
    (h : variantAt B (c :: t) = none) :
    variantOff B (c :: t) = (variantOff B t).map fun r => (r.1 + 1, r.2) := by
  simp [variantOff, h]

theorem variantOff_append_no_dot (B : Str) :
    ∀ (u t : Str), '.' ∉ u →
      variantOff B (u ++ t) = (variantOff B t).map fun r => (r.1 + u.length, r.2) := by
  intro u
  induction u with
  | nil =>
    intro t _
    simp only [List.nil_append]
    cases h : variantOff B t <;> simp [h]
  | cons c u' ih =>
    intro t hd
    have hc : c ≠ '.' := fun h => hd (by rw [← h]; exact List.mem_cons_self c u')
    rw [List.cons_append, variantOff_cons_none _ _ _ (variantAt_cons_ne_dot _ _ _ hc),
        ih t (fun h => hd (List.mem_cons_of_mem _ h))]
    cases variantOff B t <;> simp <;> omega

theorem takeWhile_append_stop (p : Char → Bool) :
    ∀ (x w : Str) (g : Char), (∀ c ∈ x, p c = true) → p g = false →
      (x ++ g :: w).takeWhile p = x := by
  intro x
  induction x with
  | nil => intro w g _ hg; simp [List.takeWhile_cons, hg]
  | cons c x' ih =>
    intro w g hx hg
    have hc : p c = true := hx c (List.mem_cons_self c x')
    simp [List.takeWhile_cons, hc,
      ih w g (fun c' h => hx c' (List.mem_cons_of_mem _ h)) hg]

/-- Skipping one `.B{...}`-style segment: no variant-pattern match starts
inside `'.' :: B ++ '{' :: rest` when neither `B` nor `rest` contains a
dot. -/
theorem variantOff_skip_segment (B rest tail : Str) (hB : '.' ∉ B)
    (hrest : '.' ∉ rest) :
    variantOff B (('.' :: (B ++ '{' :: rest)) ++ tail)
      = (variantOff B tail).map
          fun r => (r.1 + (B.length + rest.length + 2), r.2) := by
  have hform : ('.' :: (B ++ '{' :: rest)) ++ tail
      = '.' :: ((B ++ '{' :: rest) ++ tail) := by simp
  have hform2 : (B ++ '{' :: rest) ++ tail = B ++ '{' :: (rest ++ tail) := by
    simp [List.append_assoc]
  have hpre : ((B ++ ['.']).isPrefixOf (B ++ '{' :: (rest ++ tail))) = false := by
    rw [isPrefixOf_append_cancel]
    simp [List.isPrefixOf]
  have hhead : variantAt B ('.' :: ((B ++ '{' :: rest) ++ tail)) = none := by
    rw [hform2]
    simp [variantAt, List.isPrefixOf, hpre]
  have hnodot : '.' ∉ B ++ '{' :: rest := by
    intro h
    rcases List.mem_append.mp h with h | h
    · exact hB h
    · rcases List.mem_cons.mp h with h | h
      · exact absurd h.symm (by decide)
      · exact hrest h
  rw [hform, variantOff_cons_none _ _ _ hhead, variantOff_append_no_dot _ _ _ hnodot]
  cases variantOff B tail with
  | none => rfl
  | some r =>
    simp only [Option.map_some']
    have : (B ++ '{' :: rest).length = B.length + rest.length + 1 := by
      simp only [List.length_append, List.length_cons]; omega
    rw [this]
    simp only [Option.some.injEq, Prod.mk.injEq]
    exact ⟨by omega, by trivial⟩

/-- The variant pattern matches at the head of `'.' :: B ++ '.' :: x`
followed by a non-word character, capturing exactly `x`. -/
theorem variantOff_match (B x rest' : Str) (g : Char)
    (hx : ∀ c ∈ x, isWordChar c = true) (hxne : x ≠ [])
    (hg : isWordChar g = false) :
    variantOff B (('.' :: (B ++ '.' :: x)) ++ g :: rest') = some (0, x) := by
  have hform : ('.' :: (B ++ '.' :: x)) ++ g :: rest'
      = '.' :: (B ++ '.' :: (x ++ g :: rest')) := by simp [List.append_assoc]
  rw [hform]
  have hpre : (('.' :: (B ++ ['.'])).isPrefixOf
      ('.' :: (B ++ '.' :: (x ++ g :: rest')))) = true := by
    have : (B ++ ['.']).isPrefixOf (B ++ '.' :: (x ++ g :: rest')) = true := by
      rw [isPrefixOf_append_cancel]
      simp [List.isPrefixOf]
    simp [List.isPrefixOf, this]
  have hdrop : ('.' :: (B ++ '.' :: (x ++ g :: rest'))).drop (B.length + 2)
      = x ++ g :: rest' := by
    have hsplit : ('.' :: (B ++ '.' :: (x ++ g :: rest')))
        = ('.' :: (B ++ ['.'])) ++ (x ++ g :: rest') := by simp [List.append_assoc]
    have hlen : ('.' :: (B ++ ['.'])).length = B.length + 2 := by
      simp only [List.length_cons, List.length_append, List.length_nil]
    rw [hsplit, ← hlen, List.drop_left]
  have hxe : x.isEmpty = false := by simpa [List.isEmpty_iff] using hxne
  have hat : variantAt B ('.' :: (B ++ '.' :: (x ++ g :: rest'))) = some x := by
    simp [variantAt, hpre, hdrop, takeWhile_append_stop _ x rest' g hx hg, hxe]
  simp [variantOff, hat]

theorem variantLoopF_step (f : Nat) (B t : Str) (o : Nat) (run : Str)
    (h : variantOff B t = some (o, run)) :
    variantLoopF (f + 1) B t
      = run :: variantLoopF f B (t.drop (o + B.length + 2 + run.length)) := by
  simp [variantLoopF, h]

theorem variantLoopF_stop (f : Nat) (B t : Str) (h : variantOff B t = none) :
    variantLoopF f B t = [] := by
  cases f <;> simp [variantLoopF, h]

/-- The declaration body used by the canonical stylesheet of C4. -/
def braceRest : Str := "color:red\x7d".toList

/-- `{color:red}` — a dot-free declaration block. -/
def brace : Str := '{' :: braceRest

/-- The canonical stylesheet with exactly the selectors `.B`, `.B.x`,
`.B.y`: `.B{color:red}.B.x{color:red}.B.y{color:red}`. -/
def cssOf (B x y : Str) : Str :=
  '.' :: B ++ brace ++ '.' :: B ++ '.' :: x ++ brace ++ '.' :: B ++ '.' :: y ++ brace

/-- Counterexample to C4: with the variant class `dark-mode` (a legal CSS
class name), the `\.B\.(\w+)` pattern captures only the leading word-run
`dark`, so the extracted variant set is {dark, y}, not {dark-mode, y} as the
claim requires for selectors `.hero`, `.hero.dark-mode`, `.hero.y`. -/
theorem c4_counterexample :
    extractVariants "hero".toList
        ".hero\x7bcolor:red\x7d.hero.dark-mode\x7bcolor:red\x7d.hero.y\x7bcolor:red\x7d".toList
      = ["dark".toList, "y".toList] ∧
    "dark-mode".toList ∉ extractVariants "hero".toList
        ".hero\x7bcolor:red\x7d.hero.dark-mode\x7bcolor:red\x7d.hero.y\x7bcolor:red\x7d".toList := by
  exact ⟨by decide, by decide⟩

/-- C4 (amended): for every block name B whose characters all lie in
`[A-Za-z0-9_-]` (so the raw interpolation into the regex is literal — names
with regex metacharacters behave as pattern syntax or throw, and are outside
this claim) and variant tokens x, y consisting of word characters
(`[A-Za-z0-9_]`, the `\w` class — hyphenated class names are truncated at
the first non-word character, as the counterexample shows), with x ≠ B and
y ≠ B, the stylesheet `.B{color:red}.B.x{color:red}.B.y{color:red}` yields
exactly the deduplicated variant list {x, y}. -/
theorem c4_amended_variant_extraction :
    ∀ (B x y : Str), (∀ c ∈ B, isClassChar c = true) → x ≠ [] → y ≠ [] →
      (∀ c ∈ x, isWordChar c = true) → (∀ c ∈ y, isWordChar c = true) →
      x ≠ B → y ≠ B →
      extractVariants B (cssOf B x y) = if x = y then [x] else [x, y] := by
  intro B x y hBc hxne hyne hx hy hxB hyB
  have hB : '.' ∉ B := fun h => absurd (hBc '.' h) (by decide)
  have hbrdot : '.' ∉ braceRest := by decide
  have e1 : cssOf B x y
      = ('.' :: (B ++ '{' :: braceRest))
        ++ (('.' :: (B ++ '.' :: x))
          ++ '{' :: (braceRest ++ (('.' :: (B ++ '.' :: y)) ++ '{' :: braceRest))) := by
    simp [cssOf, brace, List.append_assoc]
  have step1 : variantOff B (cssOf B x y)
      = some (B.length + braceRest.length + 2, x) := by
    rw [e1, variantOff_skip_segment B braceRest _ hB hbrdot,
      variantOff_match B x _ '{' hx hxne (by decide)]
    simp
  have e2 : cssOf B x y
      = ((('.' :: (B ++ '{' :: braceRest)) ++ ('.' :: (B ++ '.' :: x)))
          ++ ('{' :: (braceRest ++ (('.' :: (B ++ '.' :: y)) ++ '{' :: braceRest)))) := by
    simp [cssOf, brace, List.append_assoc]
  have hlen1 : (('.' :: (B ++ '{' :: braceRest)) ++ ('.' :: (B ++ '.' :: x))).length
      = B.length + braceRest.length + 2 + B.length + 2 + x.length := by
    simp only [List.length_append, List.length_cons]; omega
  have hdrop1 : (cssOf B x y).drop (B.length + braceRest.length + 2 + B.length + 2 + x.length)
      = '{' :: (braceRest ++ (('.' :: (B ++ '.' :: y)) ++ '{' :: braceRest)) := by
    rw [e2, ← hlen1, List.drop_left]
  have step2 : variantOff B ('{' :: (braceRest ++ (('.' :: (B ++ '.' :: y)) ++ '{' :: braceRest)))
      = some (braceRest.length + 1, y) := by
    rw [variantOff_cons_none _ _ _ (variantAt_cons_ne_dot _ _ _ (by decide)),
      variantOff_append_no_dot _ _ _ hbrdot,
      variantOff_match B y _ '{' hy hyne (by decide)]
    simp
  have e3 : '{' :: (braceRest ++ (('.' :: (B ++ '.' :: y)) ++ '{' :: braceRest))
      = (('{' :: braceRest) ++ ('.' :: (B ++ '.' :: y))) ++ ('{' :: braceRest) := by
    simp [List.append_assoc]
  have hlen2 : (('{' :: braceRest) ++ ('.' :: (B ++ '.' :: y))).length
      = braceRest.length + 1 + B.length + 2 + y.length := by
    simp only [List.length_append, List.length_cons]; omega
  have hdrop2 : ('{' :: (braceRest ++ (('.' :: (B ++ '.' :: y)) ++ '{' :: braceRest))).drop
      (braceRest.length + 1 + B.length + 2 + y.length) = '{' :: braceRest := by
    rw [e3, ← hlen2, List.drop_left]
  have step3 : variantOff B ('{' :: braceRest) = none := by
    rw [variantOff_cons_none _ _ _ (variantAt_cons_ne_dot _ _ _ (by decide))]
    have h0 : variantOff B braceRest = none := by
      rw [← List.append_nil braceRest, variantOff_append_no_dot _ _ _ hbrdot]
      rfl
    rw [h0]
    rfl
  have hpos : 0 < (cssOf B x y).length := by simp [cssOf]
  obtain ⟨k, hk⟩ : ∃ k, (cssOf B x y).length = k + 1 :=
    ⟨(cssOf B x y).length - 1, by omega⟩
  have hcap : variantLoopF ((cssOf B x y).length + 1) B (cssOf B x y) = [x, y] := by
    rw [variantLoopF_step _ _ _ _ _ step1, hdrop1, hk,
      variantLoopF_step _ _ _ _ _ step2, hdrop2, variantLoopF_stop _ _ _ step3]
  rw [extractVariants, hcap]
  have hxBb : (x == B) = false := beq_eq_false_iff_ne.mpr hxB
  have hyBb : (y == B) = false := beq_eq_false_iff_ne.mpr hyB
  by_cases hxy : x = y
  · subst hxy
    simp [List.foldl, hxBb, insertUniq]
  · have hyx : (y == x) = false := beq_eq_false_iff_ne.mpr (Ne.symm hxy)
    simp [List.foldl, hxBb, hyBb, insertUniq, List.contains_cons, hyx, hxy]
    exact fun h => hxy h.symm

/-- Witness for C4 (amended) at a concrete input: block "hero" with variant
tokens "x" and "wide". -/
theorem c4_amended_variant_extraction_witness :
    extractVariants "hero".toList (cssOf "hero".toList "x".toList "wide".toList)
      = ["x".toList, "wide".toList] := by
  have h := c4_amended_variant_extraction "hero".toList "x".toList "wide".toList
    (by decide) (by decide) (by decide) (by decide) (by decide) (by decide) (by decide)
  simpa using h
